import Mathlib

/-! Mutual-follower detection and webhook delivery with retry.

A shallow embedding of `src/main.go` (`solveMutualFollowers`, `sendResultWithRetry`) and of
`src/models/models.go` (`User`), followed by the properties proved about them.

Go maps are embedded as association lists kept in insertion order.  The iteration order of a
Go `range` over a map is unspecified, so the scanning loop of `solveMutualFollowers` takes the
traversal it follows as an explicit argument; `IsTraversal` says which traversals a run may take.
Go `int` values are embedded as `Int`: identifiers are only compared and printed, never used in
arithmetic.
-/

namespace MutualFollowers

/-! ## Part I: the embedding -/

/-! ### Data model (`src/models/models.go`) -/

/-- The `User` record of `models.go`. -/
structure User where
  ID : Int
  Name : String
  Follows : List Int
deriving DecidableEq, Repr

/-- A Go `map[int]bool` whose stored values are all `true`: the list of its keys. -/
abbrev FollowSet := List Int

/-- A Go `map[int]map[int]bool`: association list from follower ID to its follow set. -/
abbrev FollowingMap := List (Int × FollowSet)

/-! ### Map primitives -/

/-- The lookup `m[k]` with its `ok` flag: `none` when the key is absent. -/
def mapGet : FollowingMap → Int → Option FollowSet
  | [], _ => none
  | (k', s) :: rest, k => if k' = k then some s else mapGet rest k

/-- The assignment `s[x] = true` on a follow set. -/
def setInsert (s : FollowSet) (x : Int) : FollowSet :=
  if x ∈ s then s else s ++ [x]

/-- The assignment `m[k] = make(map[int]bool)` for a key that is absent (line 114). -/
def mapInsertEmpty (m : FollowingMap) (k : Int) : FollowingMap :=
  m ++ [(k, [])]

/-- The assignment `m[k][x] = true` (line 117): the follow set stored under `k` gains `x`. -/
def mapAddFollow : FollowingMap → Int → Int → FollowingMap
  | [], _, _ => []
  | (k', s) :: rest, k, x =>
    if k' = k then (k', setInsert s x) :: rest else (k', s) :: mapAddFollow rest k x

/-! ### `solveMutualFollowers`, first loop (lines 111-119) -/

/-- One iteration of the loop over `users` (lines 112-119). -/
def addUser (followingMap : FollowingMap) (user : User) : FollowingMap :=
  let followingMap :=
    if (mapGet followingMap user.ID).isSome then followingMap
    else mapInsertEmpty followingMap user.ID
  user.Follows.foldl (fun fm followedID => mapAddFollow fm user.ID followedID) followingMap

/-- The adjacency map built by lines 111-119. -/
def buildFollowingMap (users : List User) : FollowingMap :=
  users.foldl addUser []

/-! ### `solveMutualFollowers`, second loop (lines 121-140) -/

/-- Decimal rendering of an integer, as `%d` prints it. -/
def formatInt (i : Int) : String :=
  match i with
  | Int.ofNat n => Nat.repr n
  | Int.negSucc n => "-" ++ Nat.repr (n + 1)

/-- The key `fmt.Sprintf("%d-%d", pair[0], pair[1])` of line 130. -/
def pairKey (a b : Int) : String :=
  formatInt a ++ "-" ++ formatInt b

/-- The call `sort.Ints(pair)` on the two-element slice `{x, y}` (lines 128-129), as the
pair of its elements `(pair[0], pair[1])` after sorting. -/
def sortInts2 (x y : Int) : Int × Int :=
  if y < x then (y, x) else (x, y)

/-- The two variables the scanning loop updates: the slice `mutualPairs` and the set of keys
of `addedPairs` (a `map[string]bool` whose stored values are all `true`). -/
structure ScanState where
  mutualPairs : List (List Int)
  addedPairs : List String
deriving DecidableEq, Repr

/-- The body of the inner loop (lines 126-137) for the edge `followerID → followedID`. -/
def visitEdge (followingMap : FollowingMap) (followerID : Int) (st : ScanState)
    (followedID : Int) : ScanState :=
  match mapGet followingMap followedID with
  | none => st
  | some otherFollowsMap =>
    if followerID ∈ otherFollowsMap then
      let pair := sortInts2 followerID followedID
      let key := pairKey pair.1 pair.2
      if key ∈ st.addedPairs then st
      else { mutualPairs := st.mutualPairs ++ [[pair.1, pair.2]],
             addedPairs := st.addedPairs ++ [key] }
    else st

/-- The body of the outer loop (lines 125-138): `entry.1` is `followerID`, `entry.2` lists the
keys of `followedMap` in the order the inner `range` yields them. -/
def visitFollower (followingMap : FollowingMap) (st : ScanState) (entry : Int × List Int) :
    ScanState :=
  entry.2.foldl (visitEdge followingMap entry.1) st

/-- The scanning loop (lines 121-140) run along the traversal `order`. -/
def scanFollowingMap (followingMap : FollowingMap) (order : List (Int × List Int)) :
    List (List Int) :=
  (order.foldl (visitFollower followingMap) { mutualPairs := [], addedPairs := [] }).mutualPairs

/-- What a Go `range` over a follow set may yield: its keys, each once, in any order. -/
def RangesOver (keys : List Int) : Option FollowSet → Prop
  | some s => keys.Perm s
  | none => False

instance (keys : List Int) (s : Option FollowSet) : Decidable (RangesOver keys s) := by
  cases s <;> simp only [RangesOver] <;> infer_instance

/-- The traversals a run of lines 124-125 may take on `followingMap`: the outer `range` yields
every key once in some order, and for each key the inner `range` yields every element of its
follow set once in some order. -/
def IsTraversal (followingMap : FollowingMap) (order : List (Int × List Int)) : Prop :=
  (order.map Prod.fst).Perm (followingMap.map Prod.fst) ∧
    ∀ entry ∈ order, RangesOver entry.2 (mapGet followingMap entry.1)

instance (followingMap : FollowingMap) (order : List (Int × List Int)) :
    Decidable (IsTraversal followingMap order) := by
  unfold IsTraversal; infer_instance

/-- The function `solveMutualFollowers` (lines 110-141); `order` is the order in which the two
`range` loops walk the adjacency map in this run. -/
def solveMutualFollowers (users : List User) (order : List (Int × List Int)) :
    List (List Int) :=
  scanFollowingMap (buildFollowingMap users) order

/-- The run that walks the adjacency map in insertion order. -/
def insertionOrder (users : List User) : List (Int × List Int) :=
  buildFollowingMap users

/-! ### `sendResultWithRetry` (lines 143-190) -/

/-- The attempt bound `maxRetries` (line 18). -/
def maxRetries : Nat := 4

/-- What one attempt meets: `http.NewRequest` fails (line 153), `client.Do` fails (line 163),
or a response arrives with its `StatusCode`, its `Status` text and the body that was read. -/
inductive Outcome
  | requestError (msg : String)
  | transportError (msg : String)
  | response (statusCode : Int) (status : String) (body : String)
deriving DecidableEq, Repr

/-- What a run does that can be observed from outside: `attempt n` marks the start of the
iteration logged as `Attempt n` (line 151), `sleep s` is a call `time.Sleep` of `s` seconds. -/
inductive Event
  | attempt (n : Nat)
  | sleep (seconds : Nat)
deriving DecidableEq, Repr

/-- How one iteration of the loop ends: `ret` is `return nil` (line 179); `next lastErr sleep`
assigns `lastErr`, sleeps when `sleep` is `some s`, and goes on to the loop increment. -/
inductive Step
  | ret
  | next (lastErr : String) (sleep : Option Nat)
deriving DecidableEq, Repr

/-- The result of a run: the returned error (`none` is `nil`) and the events in order. -/
structure Delivery where
  err : Option String
  trace : List Event
deriving DecidableEq, Repr

/-- The loop body (lines 152-186) for the 0-based counter `attempt`. -/
def attemptBody (attempt : Nat) : Outcome → Step
  | Outcome.requestError msg =>
    Step.next ("failed to create result request: " ++ msg) (some 1)
  | Outcome.transportError msg =>
    Step.next ("failed to execute result request : " ++ msg) (some 1)
  | Outcome.response statusCode status body =>
    if 200 ≤ statusCode ∧ statusCode < 300 then Step.ret
    else
      Step.next
        ("attempt " ++ formatInt (attempt + 1) ++ ": result request failed with status " ++
          status ++ ": " ++ body)
        (if attempt < maxRetries - 1 then some (attempt + 1) else none)

/-- The events of a step's sleep. -/
def sleepEvents : Option Nat → List Event
  | some s => [Event.sleep s]
  | none => []

/-- The text `%v` prints for an error value. -/
def errorText : Option String → String
  | some e => e
  | none => "<nil>"

/-- The error returned once the loop is left (line 189). -/
def terminalError (lastErr : Option String) : String :=
  "failed after " ++ formatInt maxRetries ++ " attempts. Last error: " ++ errorText lastErr

/-- The loop of lines 150-187 followed by line 189.  `remaining` is `maxRetries - attempt`, so
the loop test `attempt < maxRetries` is `remaining ≠ 0`; `outcomes attempt` is what the
iteration with counter `attempt` meets. -/
def retryLoop (outcomes : Nat → Outcome) :
    Nat → Nat → Option String → List Event → Delivery
  | 0, _, lastErr, trace => { err := some (terminalError lastErr), trace := trace }
  | remaining + 1, attempt, _, trace =>
    match attemptBody attempt (outcomes attempt) with
    | Step.ret => { err := none, trace := trace ++ [Event.attempt (attempt + 1)] }
    | Step.next e sleep =>
      retryLoop outcomes remaining (attempt + 1) (some e)
        (trace ++ Event.attempt (attempt + 1) :: sleepEvents sleep)

/-- The function `sendResultWithRetry` over the outcomes its attempts meet.  The payload is a
string and a `[][]int`, whose marshalling (line 144) cannot fail. -/
def sendResultWithRetry (outcomes : Nat → Outcome) : Delivery :=
  retryLoop outcomes maxRetries 0 none []

/-! ## Part II: vocabulary of the statements -/

/-- Input relation "some input user with ID `a` lists `b` in its follows". -/
def FollowsIn (users : List User) (a b : Int) : Prop :=
  ∃ u ∈ users, u.ID = a ∧ b ∈ u.Follows

/-- The adjacency map has the edge `a → b`: `b` is in the follow set stored under `a`. -/
def HasEdge (m : FollowingMap) (a b : Int) : Prop :=
  ∃ s, mapGet m a = some s ∧ b ∈ s

/-- The pair appended for the edge `a → b`: `[pair[0], pair[1]]` after `sort.Ints`. -/
def sortedPair (a b : Int) : List Int :=
  [(sortInts2 a b).1, (sortInts2 a b).2]

/-- The edges the scanning loop visits along `order`, in visiting order. -/
def edgesOf (order : List (Int × List Int)) : List (Int × Int) :=
  order.flatMap (fun entry => entry.2.map (fun followedID => (entry.1, followedID)))

/-- Loop invariant tying `addedPairs` to `mutualPairs`: a key is recorded exactly when its
pair has been appended. -/
def KeyInv (st : ScanState) : Prop :=
  ∀ a b : Int, pairKey a b ∈ st.addedPairs ↔ [a, b] ∈ st.mutualPairs

/-- Value of a digit string read in base ten. -/
def decimalValue (cs : List Char) : Nat :=
  cs.foldl (fun acc c => 10 * acc + (c.toNat - 48)) 0

/-- A response whose status code is in the range 200..299. -/
def Is2xx : Outcome → Prop
  | Outcome.response statusCode _ _ => 200 ≤ statusCode ∧ statusCode < 300
  | _ => False

instance (o : Outcome) : Decidable (Is2xx o) := by
  cases o <;> simp only [Is2xx] <;> infer_instance

/-- A response whose status code is outside the range 200..299. -/
def IsNon2xxResponse : Outcome → Prop
  | Outcome.response statusCode _ _ => ¬ (200 ≤ statusCode ∧ statusCode < 300)
  | _ => False

instance (o : Outcome) : Decidable (IsNon2xxResponse o) := by
  cases o <;> simp only [IsNon2xxResponse] <;> infer_instance

/-- Whether an event is the start of an attempt. -/
def Event.isAttempt : Event → Bool
  | Event.attempt _ => true
  | Event.sleep _ => false

/-- The seconds of a sleep event. -/
def Event.seconds? : Event → Option Nat
  | Event.attempt _ => none
  | Event.sleep s => some s

/-- The number of attempts a run made. -/
def attemptsMade (d : Delivery) : Nat :=
  (d.trace.filter Event.isAttempt).length

/-- The sleeps of a run, in order. -/
def sleepsOf (d : Delivery) : List Nat :=
  d.trace.filterMap Event.seconds?

/-- The sleeps performed after attempt `n` (1-based) and before the next attempt or the
return. -/
def sleepsAfter (trace : List Event) (n : Nat) : List Nat :=
  (((trace.dropWhile (fun e => decide (e ≠ Event.attempt n))).drop 1).takeWhile
    (fun e => !e.isAttempt)).filterMap Event.seconds?

/-- The text `t` occurs in the text `s`. -/
def Includes (s t : String) : Prop :=
  List.IsInfix t.data s.data

/-- The sleeps of one step, in seconds. -/
def stepSleeps : Step → List Nat
  | Step.ret => []
  | Step.next _ sleep => sleep.toList

/-- The events the loop appends from the state `(remaining, attempt)` on. -/
def loopEvents (outcomes : Nat → Outcome) : Nat → Nat → List Event
  | 0, _ => []
  | remaining + 1, attempt =>
    Event.attempt (attempt + 1) ::
      match attemptBody attempt (outcomes attempt) with
      | Step.ret => []
      | Step.next _ sleep => sleepEvents sleep ++ loopEvents outcomes remaining (attempt + 1)

/-! ### Inputs used as examples -/

/-- Scenario of the specification: users 1, 2, 3 with follows `[2]`, `[1,3]`, `[2]`. -/
def scenarioUsers : List User :=
  [⟨1, "a", [2]⟩, ⟨2, "b", [1, 3]⟩, ⟨3, "c", [2]⟩]

/-- Users of the duplicate-ID example: ID 1 occurs twice, with follows `[2]` and `[3]`. -/
def duplicateUsers : List User :=
  [⟨1, "a", [2]⟩, ⟨2, "b", [1]⟩, ⟨1, "c", [3]⟩]

/-- A user that follows only themselves. -/
def selfLoopUsers : List User :=
  [⟨1, "a", [1]⟩]

/-- Outcomes of a run given by a list, with `rest` for every attempt past its end. -/
def outcomesOf (l : List Outcome) (rest : Outcome) : Nat → Outcome :=
  fun i => l.getD i rest

/-- A 500 response. -/
def response500 : Outcome :=
  Outcome.response 500 "500 Internal Server Error" "boom"

/-! ## Part III: lemmas -/

/-! ### The dedup key is injective -/

theorem digitChar_toNat (k : Nat) (hk : k < 10) : (Nat.digitChar k).toNat - 48 = k := by
  interval_cases k <;> rfl

theorem digitChar_ne_minus (k : Nat) (hk : k < 10) : Nat.digitChar k ≠ '-' := by
  interval_cases k <;> decide

theorem foldl_toDigitsCore (fuel : Nat) : ∀ (n : Nat) (ds : List Char), n < fuel →
    (Nat.toDigitsCore 10 fuel n ds).foldl (fun acc c => 10 * acc + (c.toNat - 48)) 0 =
      ds.foldl (fun acc c => 10 * acc + (c.toNat - 48)) n := by
  induction fuel with
  | zero => intro n ds h; omega
  | succ fuel ih =>
    intro n ds h
    simp only [Nat.toDigitsCore]
    split
    · rename_i h0
      have hn : n % 10 = n := by omega
      have hd := digitChar_toNat (n % 10) (Nat.mod_lt _ (by decide))
      rw [hn] at hd
      simp only [List.foldl_cons, hn, hd, Nat.mul_zero, Nat.zero_add]
    · rename_i h0
      rw [ih (n / 10) _ (by omega)]
      simp only [List.foldl_cons, digitChar_toNat (n % 10) (Nat.mod_lt _ (by decide))]
      congr 1
      omega

theorem decimalValue_toDigits (n : Nat) : decimalValue (Nat.toDigits 10 n) = n := by
  unfold decimalValue Nat.toDigits
  rw [foldl_toDigitsCore (n + 1) n [] (by omega)]
  rfl

theorem toDigits_injective {n m : Nat} (h : Nat.toDigits 10 n = Nat.toDigits 10 m) : n = m := by
  have := congrArg decimalValue h
  rwa [decimalValue_toDigits, decimalValue_toDigits] at this

theorem toDigitsCore_no_minus (fuel : Nat) : ∀ (n : Nat) (ds : List Char), '-' ∉ ds →
    '-' ∉ Nat.toDigitsCore 10 fuel n ds := by
  induction fuel with
  | zero => intro n ds h; simpa [Nat.toDigitsCore] using h
  | succ fuel ih =>
    intro n ds h
    have hd : '-' ∉ Nat.digitChar (n % 10) :: ds := by
      intro hm
      rcases List.mem_cons.1 hm with h1 | h1
      · exact digitChar_ne_minus (n % 10) (Nat.mod_lt _ (by decide)) h1.symm
      · exact h h1
    simp only [Nat.toDigitsCore]
    split
    · exact hd
    · exact ih _ _ hd

theorem toDigits_no_minus (n : Nat) : '-' ∉ Nat.toDigits 10 n :=
  toDigitsCore_no_minus _ _ _ (by simp)

theorem toDigitsCore_ne_nil (fuel : Nat) : ∀ (n : Nat) (ds : List Char), ds ≠ [] →
    Nat.toDigitsCore 10 fuel n ds ≠ [] := by
  induction fuel with
  | zero => intro n ds h; simpa [Nat.toDigitsCore] using h
  | succ fuel ih =>
    intro n ds _
    simp only [Nat.toDigitsCore]
    split
    · simp
    · exact ih _ _ (by simp)

theorem toDigits_ne_nil (n : Nat) : Nat.toDigits 10 n ≠ [] := by
  unfold Nat.toDigits
  simp only [Nat.toDigitsCore]
  split
  · simp
  · exact toDigitsCore_ne_nil _ _ _ (by simp)

/-- The characters of `formatInt`: an optional sign followed by a nonempty run of digits. -/
theorem formatInt_data (i : Int) :
    ∃ ds : List Char, ds ≠ [] ∧ '-' ∉ ds ∧
      ((formatInt i).data = ds ∨ (formatInt i).data = '-' :: ds) := by
  cases i with
  | ofNat n => exact ⟨Nat.toDigits 10 n, toDigits_ne_nil n, toDigits_no_minus n, Or.inl rfl⟩
  | negSucc n =>
    exact ⟨Nat.toDigits 10 (n + 1), toDigits_ne_nil _, toDigits_no_minus _, Or.inr rfl⟩

theorem head_ne_minus {ds rest : List Char} (h1 : ds ≠ []) (h2 : '-' ∉ ds) :
    ∀ xs, ds ++ rest ≠ '-' :: xs := by
  intro xs h
  cases ds with
  | nil => exact h1 rfl
  | cons c cs =>
    simp only [List.cons_append, List.cons.injEq] at h
    exact h2 (by simp [h.1])

theorem split_at_minus : ∀ {xs ys r r' : List Char}, '-' ∉ xs → '-' ∉ ys →
    xs ++ '-' :: r = ys ++ '-' :: r' → xs = ys ∧ r = r'
  | [], [], _, _, _, _, h => by simpa using h
  | [], y :: ys, _, _, _, hy, h => by
    simp only [List.nil_append, List.cons_append, List.cons.injEq] at h
    exact absurd (h.1 ▸ List.mem_cons_self _ _) hy
  | x :: xs, [], _, _, hx, _, h => by
    simp only [List.nil_append, List.cons_append, List.cons.injEq] at h
    exact absurd (h.1 ▸ List.mem_cons_self _ _) hx
  | x :: xs, y :: ys, _, _, hx, hy, h => by
    simp only [List.cons_append, List.cons.injEq] at h
    have := split_at_minus (fun hm => hx (List.mem_cons_of_mem _ hm))
      (fun hm => hy (List.mem_cons_of_mem _ hm)) h.2
    exact ⟨by rw [h.1, this.1], this.2⟩

theorem formatInt_injective {a b : Int} (h : formatInt a = formatInt b) : a = b := by
  have hd : (formatInt a).data = (formatInt b).data := by rw [h]
  cases a with
  | ofNat n =>
    cases b with
    | ofNat m =>
      have : Nat.toDigits 10 n = Nat.toDigits 10 m := hd
      rw [toDigits_injective this]
    | negSucc m =>
      have : Nat.toDigits 10 n ++ [] = '-' :: Nat.toDigits 10 (m + 1) := by
        rw [List.append_nil]; exact hd
      exact absurd this (head_ne_minus (toDigits_ne_nil n) (toDigits_no_minus n) _)
  | negSucc n =>
    cases b with
    | ofNat m =>
      have : Nat.toDigits 10 m ++ [] = '-' :: Nat.toDigits 10 (n + 1) := by
        rw [List.append_nil]; exact hd.symm
      exact absurd this (head_ne_minus (toDigits_ne_nil m) (toDigits_no_minus m) _)
    | negSucc m =>
      have : '-' :: Nat.toDigits 10 (n + 1) = '-' :: Nat.toDigits 10 (m + 1) := hd
      have h2 := toDigits_injective (List.cons.inj this).2
      have : n = m := by omega
      rw [this]

theorem pairKey_data (a b : Int) :
    (pairKey a b).data = (formatInt a).data ++ '-' :: (formatInt b).data := by
  simp [pairKey, String.data_append]

/-- The dedup key determines the pair it was built from. -/
theorem pairKey_injective {a b c d : Int} (h : pairKey a b = pairKey c d) : a = c ∧ b = d := by
  have hd : (pairKey a b).data = (pairKey c d).data := by rw [h]
  rw [pairKey_data, pairKey_data] at hd
  obtain ⟨da, ha1, ha2, ha⟩ := formatInt_data a
  obtain ⟨dc, hc1, hc2, hc⟩ := formatInt_data c
  have key : (formatInt a).data = (formatInt c).data ∧ (formatInt b).data = (formatInt d).data := by
    rcases ha with ha | ha <;> rcases hc with hc | hc <;> rw [ha, hc] at hd ⊢
    · exact split_at_minus ha2 hc2 hd
    · exact absurd hd (head_ne_minus ha1 ha2 _)
    · exact absurd hd.symm (head_ne_minus hc1 hc2 _)
    · simp only [List.cons_append, List.cons.injEq, true_and] at hd
      have := split_at_minus ha2 hc2 hd
      exact ⟨by rw [this.1], this.2⟩
  exact ⟨formatInt_injective (String.ext key.1), formatInt_injective (String.ext key.2)⟩

/-! ### The adjacency map holds exactly the input edges -/

theorem mapGet_append (m m' : FollowingMap) (k : Int) :
    mapGet (m ++ m') k = (mapGet m k).orElse (fun _ => mapGet m' k) := by
  induction m with
  | nil => simp [mapGet]
  | cons e rest ih =>
    obtain ⟨k', s⟩ := e
    simp only [List.cons_append, mapGet]
    split
    · rfl
    · exact ih

theorem mapGet_mapInsertEmpty (m : FollowingMap) (k k' : Int) (h : mapGet m k = none) :
    mapGet (mapInsertEmpty m k) k' = if k = k' then some [] else mapGet m k' := by
  rw [mapInsertEmpty, mapGet_append]
  by_cases hk : k = k'
  · subst hk
    simp [h, mapGet]
  · cases hm : mapGet m k' <;> simp [mapGet, hk]

theorem mapGet_mapAddFollow (m : FollowingMap) (k x k' : Int) :
    mapGet (mapAddFollow m k x) k' =
      if k = k' then (mapGet m k').map (fun s => setInsert s x) else mapGet m k' := by
  induction m with
  | nil => simp [mapAddFollow, mapGet]
  | cons e rest ih =>
    obtain ⟨k0, s⟩ := e
    by_cases h0 : k0 = k
    · subst h0
      by_cases h1 : k0 = k'
      · simp [mapAddFollow, mapGet, h1]
      · simp [mapAddFollow, mapGet, h1]
    · by_cases h1 : k0 = k'
      · subst h1
        have : ¬ k = k0 := fun h => h0 h.symm
        simp [mapAddFollow, mapGet, h0, this]
      · simp [mapAddFollow, mapGet, h0, h1, ih]

theorem mem_setInsert (s : FollowSet) (x y : Int) : y ∈ setInsert s x ↔ y ∈ s ∨ y = x := by
  unfold setInsert
  split
  · rename_i h
    constructor
    · exact Or.inl
    · rintro (h1 | h1)
      · exact h1
      · exact h1 ▸ h
  · simp

theorem hasEdge_mapAddFollow (m : FollowingMap) (k x a b : Int) (hk : (mapGet m k).isSome) :
    HasEdge (mapAddFollow m k x) a b ↔ HasEdge m a b ∨ (k = a ∧ b = x) := by
  unfold HasEdge
  rw [mapGet_mapAddFollow]
  by_cases h : k = a
  · subst h
    obtain ⟨s, hs⟩ := Option.isSome_iff_exists.1 hk
    simp [hs, mem_setInsert]
  · simp [h]

theorem isSome_mapGet_mapAddFollow (m : FollowingMap) (k x k' : Int) :
    (mapGet (mapAddFollow m k x) k').isSome = (mapGet m k').isSome := by
  rw [mapGet_mapAddFollow]
  split <;> simp

theorem hasEdge_foldl_mapAddFollow (k a b : Int) : ∀ (fs : List Int) (m : FollowingMap),
    (mapGet m k).isSome →
    (HasEdge (fs.foldl (fun fm followedID => mapAddFollow fm k followedID) m) a b ↔
      HasEdge m a b ∨ (k = a ∧ b ∈ fs)) := by
  intro fs
  induction fs with
  | nil => intro m _; simp
  | cons x fs ih =>
    intro m hk
    rw [List.foldl_cons, ih _ (by rw [isSome_mapGet_mapAddFollow]; exact hk),
      hasEdge_mapAddFollow m k x a b hk]
    simp only [List.mem_cons]
    tauto

theorem hasEdge_mapInsertEmpty (m : FollowingMap) (k a b : Int) (h : mapGet m k = none) :
    HasEdge (mapInsertEmpty m k) a b ↔ HasEdge m a b := by
  unfold HasEdge
  rw [mapGet_mapInsertEmpty m k a h]
  by_cases hk : k = a
  · subst hk
    simp [h]
  · simp [hk]

/-- One user adds exactly its own follow edges to the adjacency map. -/
theorem hasEdge_addUser (m : FollowingMap) (u : User) (a b : Int) :
    HasEdge (addUser m u) a b ↔ HasEdge m a b ∨ (u.ID = a ∧ b ∈ u.Follows) := by
  unfold addUser
  cases hm : mapGet m u.ID with
  | some s =>
    simp only [Option.isSome_some, if_true]
    exact hasEdge_foldl_mapAddFollow u.ID a b u.Follows m (by simp [hm])
  | none =>
    simp only [Option.isSome_none, Bool.false_eq_true, if_false]
    rw [hasEdge_foldl_mapAddFollow u.ID a b u.Follows _
      (by rw [mapGet_mapInsertEmpty m _ _ hm]; simp), hasEdge_mapInsertEmpty m _ a b hm]

theorem hasEdge_foldl_addUser (a b : Int) : ∀ (users : List User) (m : FollowingMap),
    HasEdge (users.foldl addUser m) a b ↔ HasEdge m a b ∨ FollowsIn users a b := by
  intro users
  induction users with
  | nil => intro m; simp [FollowsIn]
  | cons u users ih =>
    intro m
    rw [List.foldl_cons, ih, hasEdge_addUser]
    simp only [FollowsIn, List.mem_cons, exists_eq_or_imp]
    tauto

/-- The adjacency map has the edge `a → b` exactly when some input user with ID `a` lists `b`:
the follow lists of all users sharing an ID are merged. -/
theorem hasEdge_buildFollowingMap (users : List User) (a b : Int) :
    HasEdge (buildFollowingMap users) a b ↔ FollowsIn users a b := by
  unfold buildFollowingMap
  rw [hasEdge_foldl_addUser]
  simp [HasEdge, mapGet]

/-! ### The adjacency map is well formed -/

theorem keys_mapAddFollow (m : FollowingMap) (k x : Int) :
    (mapAddFollow m k x).map Prod.fst = m.map Prod.fst := by
  induction m with
  | nil => rfl
  | cons e rest ih =>
    obtain ⟨k', s⟩ := e
    by_cases h : k' = k
    · simp [mapAddFollow, h]
    · simp [mapAddFollow, h, ih]

theorem keys_foldl_mapAddFollow (k : Int) : ∀ (fs : List Int) (m : FollowingMap),
    (fs.foldl (fun fm followedID => mapAddFollow fm k followedID) m).map Prod.fst =
      m.map Prod.fst := by
  intro fs
  induction fs with
  | nil => intro m; rfl
  | cons x fs ih => intro m; rw [List.foldl_cons, ih, keys_mapAddFollow]

theorem mapGet_eq_none_iff (m : FollowingMap) (k : Int) :
    mapGet m k = none ↔ k ∉ m.map Prod.fst := by
  induction m with
  | nil => simp [mapGet]
  | cons e rest ih =>
    obtain ⟨k', s⟩ := e
    by_cases h : k' = k
    · simp [mapGet, h]
    · have h' : ¬ k = k' := fun hk => h hk.symm
      simp [mapGet, h, h', ih]

theorem keys_nodup_addUser (m : FollowingMap) (u : User) (h : (m.map Prod.fst).Nodup) :
    ((addUser m u).map Prod.fst).Nodup := by
  unfold addUser
  rw [keys_foldl_mapAddFollow]
  cases hm : mapGet m u.ID with
  | some s => simpa using h
  | none =>
    have hnot := (mapGet_eq_none_iff m u.ID).1 hm
    simp only [Option.isSome_none, Bool.false_eq_true, if_false, mapInsertEmpty, List.map_append,
      List.map_cons, List.map_nil]
    exact List.Nodup.append h (List.nodup_singleton _)
      (by
        intro k hk hk'
        rw [List.mem_singleton] at hk'
        exact hnot (hk' ▸ hk))

theorem keys_nodup_foldl_addUser : ∀ (users : List User) (m : FollowingMap),
    (m.map Prod.fst).Nodup → ((users.foldl addUser m).map Prod.fst).Nodup := by
  intro users
  induction users with
  | nil => intro m h; exact h
  | cons u users ih => intro m h; exact ih _ (keys_nodup_addUser m u h)

/-- The adjacency map holds every key once. -/
theorem keys_nodup_buildFollowingMap (users : List User) :
    ((buildFollowingMap users).map Prod.fst).Nodup :=
  keys_nodup_foldl_addUser users [] List.nodup_nil

theorem mapGet_of_mem : ∀ (m : FollowingMap), (m.map Prod.fst).Nodup →
    ∀ entry ∈ m, mapGet m entry.1 = some entry.2 := by
  intro m
  induction m with
  | nil => intro _ entry he; simp at he
  | cons e rest ih =>
    intro hnd entry he
    obtain ⟨k', s⟩ := e
    rw [List.map_cons, List.nodup_cons] at hnd
    rcases List.mem_cons.1 he with rfl | hin
    · simp [mapGet]
    · have hne : ¬ k' = entry.1 := by
        intro hk
        have hmem : entry.1 ∈ rest.map Prod.fst := List.mem_map_of_mem Prod.fst hin
        rw [← hk] at hmem
        exact hnd.1 hmem
      simp only [mapGet, hne, if_false]
      exact ih hnd.2 entry hin

/-- The insertion order is one of the traversals a run may take. -/
theorem isTraversal_refl_of_lookup (m : FollowingMap)
    (h : ∀ entry ∈ m, mapGet m entry.1 = some entry.2) : IsTraversal m m :=
  ⟨List.Perm.refl _, fun entry he => by rw [h entry he]; exact List.Perm.refl _⟩

/-- Every input has a traversal: the one in insertion order. -/
theorem isTraversal_insertionOrder (users : List User) :
    IsTraversal (buildFollowingMap users) (insertionOrder users) :=
  isTraversal_refl_of_lookup _ (mapGet_of_mem _ (keys_nodup_buildFollowingMap users))

/-! ### The scanning loop -/

theorem visitEdge_of_back {m : FollowingMap} {a b : Int} (st : ScanState) (h : HasEdge m b a) :
    visitEdge m a st b =
      if pairKey (sortInts2 a b).1 (sortInts2 a b).2 ∈ st.addedPairs then st
      else { mutualPairs := st.mutualPairs ++ [sortedPair a b],
             addedPairs := st.addedPairs ++ [pairKey (sortInts2 a b).1 (sortInts2 a b).2] } := by
  obtain ⟨s, hs, hmem⟩ := h
  simp only [visitEdge, hs, hmem, if_true, sortedPair]

theorem visitEdge_of_not_back {m : FollowingMap} {a b : Int} (st : ScanState)
    (h : ¬ HasEdge m b a) : visitEdge m a st b = st := by
  unfold visitEdge
  cases hs : mapGet m b with
  | none => rfl
  | some s =>
    have : a ∉ s := fun hmem => h ⟨s, hs, hmem⟩
    simp only [this, if_false]

theorem visitEdge_keyInv {m : FollowingMap} {a b : Int} {st : ScanState} (hinv : KeyInv st) :
    KeyInv (visitEdge m a st b) := by
  by_cases h : HasEdge m b a
  · rw [visitEdge_of_back st h]
    split
    · exact hinv
    · intro c d
      simp only [List.mem_append, List.mem_singleton, sortedPair, hinv c d]
      constructor
      · rintro (h1 | h1)
        · exact Or.inl h1
        · obtain ⟨h2, h3⟩ := pairKey_injective h1
          exact Or.inr (by rw [h2, h3])
      · rintro (h1 | h1)
        · exact Or.inl h1
        · simp only [List.cons.injEq, and_true] at h1
          exact Or.inr (by rw [h1.1, h1.2])
  · rw [visitEdge_of_not_back st h]
    exact hinv

theorem visitEdge_nodup {m : FollowingMap} {a b : Int} {st : ScanState} (hinv : KeyInv st)
    (hnd : st.mutualPairs.Nodup) : (visitEdge m a st b).mutualPairs.Nodup := by
  by_cases h : HasEdge m b a
  · rw [visitEdge_of_back st h]
    split
    · exact hnd
    · rename_i hkey
      have hnot : sortedPair a b ∉ st.mutualPairs := fun hin => hkey ((hinv _ _).2 hin)
      exact List.Nodup.append hnd (List.nodup_singleton _)
        (by
          intro p hp hp'
          rw [List.mem_singleton] at hp'
          exact hnot (hp' ▸ hp))
  · rw [visitEdge_of_not_back st h]
    exact hnd

theorem mem_visitEdge {m : FollowingMap} {a b : Int} {st : ScanState} (hinv : KeyInv st)
    (p : List Int) :
    p ∈ (visitEdge m a st b).mutualPairs ↔
      p ∈ st.mutualPairs ∨ (HasEdge m b a ∧ p = sortedPair a b) := by
  by_cases h : HasEdge m b a
  · rw [visitEdge_of_back st h]
    split
    · rename_i hkey
      have hin : sortedPair a b ∈ st.mutualPairs := (hinv _ _).1 hkey
      constructor
      · exact Or.inl
      · rintro (h1 | ⟨_, h1⟩)
        · exact h1
        · exact h1 ▸ hin
    · simp [h]
  · rw [visitEdge_of_not_back st h]
    simp [h]

/-- The scan over a list of edges: invariant, absence of duplicates and membership. -/
theorem foldl_visitEdge (m : FollowingMap) : ∀ (es : List (Int × Int)) (st : ScanState),
    KeyInv st →
    KeyInv (es.foldl (fun st e => visitEdge m e.1 st e.2) st) ∧
    (st.mutualPairs.Nodup →
      (es.foldl (fun st e => visitEdge m e.1 st e.2) st).mutualPairs.Nodup) ∧
    ∀ p, p ∈ (es.foldl (fun st e => visitEdge m e.1 st e.2) st).mutualPairs ↔
      p ∈ st.mutualPairs ∨ ∃ e ∈ es, HasEdge m e.2 e.1 ∧ p = sortedPair e.1 e.2 := by
  intro es
  induction es with
  | nil => intro st hinv; simp [hinv]
  | cons e es ih =>
    intro st hinv
    obtain ⟨h1, h2, h3⟩ := ih (visitEdge m e.1 st e.2) (visitEdge_keyInv hinv)
    refine ⟨h1, fun hnd => h2 (visitEdge_nodup hinv hnd), fun p => ?_⟩
    rw [List.foldl_cons, h3 p, mem_visitEdge hinv p]
    simp only [List.mem_cons, exists_eq_or_imp]
    tauto

theorem foldl_visitFollower (m : FollowingMap) : ∀ (order : List (Int × List Int))
    (st : ScanState),
    order.foldl (visitFollower m) st =
      (edgesOf order).foldl (fun st e => visitEdge m e.1 st e.2) st := by
  intro order
  induction order with
  | nil => intro st; rfl
  | cons entry order ih =>
    intro st
    simp only [List.foldl_cons, edgesOf, List.flatMap_cons, List.foldl_append]
    rw [ih]
    simp only [edgesOf, visitFollower, List.foldl_map]

theorem keyInv_init : KeyInv { mutualPairs := [], addedPairs := [] } := by
  intro a b; simp

/-- The scan never appends a pair twice, whatever the traversal. -/
theorem scanFollowingMap_nodup (m : FollowingMap) (order : List (Int × List Int)) :
    (scanFollowingMap m order).Nodup := by
  unfold scanFollowingMap
  rw [foldl_visitFollower]
  exact (foldl_visitEdge m (edgesOf order) _ keyInv_init).2.1 List.nodup_nil

theorem mem_scanFollowingMap (m : FollowingMap) (order : List (Int × List Int))
    (p : List Int) :
    p ∈ scanFollowingMap m order ↔
      ∃ e ∈ edgesOf order, HasEdge m e.2 e.1 ∧ p = sortedPair e.1 e.2 := by
  unfold scanFollowingMap
  rw [foldl_visitFollower, (foldl_visitEdge m (edgesOf order) _ keyInv_init).2.2 p]
  simp

theorem mem_edgesOf (order : List (Int × List Int)) (a b : Int) :
    (a, b) ∈ edgesOf order ↔ ∃ entry ∈ order, entry.1 = a ∧ b ∈ entry.2 := by
  simp only [edgesOf, List.mem_flatMap, List.mem_map, Prod.mk.injEq]
  constructor
  · rintro ⟨entry, he, x, hx, h1, h2⟩
    exact ⟨entry, he, h1, h2 ▸ hx⟩
  · rintro ⟨entry, he, h1, h2⟩
    exact ⟨entry, he, b, h2, h1, rfl⟩

theorem mem_keys_of_mapGet {m : FollowingMap} {k : Int} {s : FollowSet}
    (h : mapGet m k = some s) : k ∈ m.map Prod.fst := by
  induction m with
  | nil => simp [mapGet] at h
  | cons e rest ih =>
    obtain ⟨k', s'⟩ := e
    simp only [mapGet] at h
    by_cases hk : k' = k
    · simp [hk]
    · simp only [hk, if_false] at h
      simp [ih h]

/-- A traversal visits exactly the edges of the adjacency map. -/
theorem mem_edgesOf_of_isTraversal {m : FollowingMap} {order : List (Int × List Int)}
    (h : IsTraversal m order) (a b : Int) : (a, b) ∈ edgesOf order ↔ HasEdge m a b := by
  rw [mem_edgesOf]
  constructor
  · rintro ⟨entry, he, h1, h2⟩
    have hr := h.2 entry he
    rw [h1] at hr
    cases hs : mapGet m a with
    | none => rw [hs] at hr; exact hr.elim
    | some s =>
      rw [hs] at hr
      exact ⟨s, hs, (List.Perm.mem_iff hr).1 h2⟩
  · rintro ⟨s, hs, hb⟩
    have hk : a ∈ order.map Prod.fst := (List.Perm.mem_iff h.1).2 (mem_keys_of_mapGet hs)
    obtain ⟨entry, he, h1⟩ := List.mem_map.1 hk
    have hr := h.2 entry he
    rw [h1, hs] at hr
    exact ⟨entry, he, h1, (List.Perm.mem_iff hr).2 hb⟩

/-- Membership in the result, for any traversal a run may take: the pairs returned are the
sorted pairs of the reciprocal edges of the input. -/
theorem mem_solveMutualFollowers {users : List User} {order : List (Int × List Int)}
    (h : IsTraversal (buildFollowingMap users) order) (p : List Int) :
    p ∈ solveMutualFollowers users order ↔
      ∃ a b, FollowsIn users a b ∧ FollowsIn users b a ∧ p = sortedPair a b := by
  unfold solveMutualFollowers
  rw [mem_scanFollowingMap]
  constructor
  · rintro ⟨⟨a, b⟩, he, hback, hp⟩
    exact ⟨a, b, (hasEdge_buildFollowingMap users a b).1 ((mem_edgesOf_of_isTraversal h a b).1 he),
      (hasEdge_buildFollowingMap users b a).1 hback, hp⟩
  · rintro ⟨a, b, hab, hba, hp⟩
    exact ⟨(a, b), (mem_edgesOf_of_isTraversal h a b).2 ((hasEdge_buildFollowingMap users a b).2 hab),
      (hasEdge_buildFollowingMap users b a).2 hba, hp⟩

theorem sortedPair_eq (a b : Int) :
    sortedPair a b = [min a b, max a b] := by
  unfold sortedPair sortInts2
  by_cases h : b < a
  · simp [h, min_eq_right (le_of_lt h), max_eq_left (le_of_lt h)]
  · have h' : a ≤ b := not_lt.1 h
    simp [h, min_eq_left h', max_eq_right h']

/-! ### Runs of the delivery loop -/

theorem attemptBody_ret_iff (attempt : Nat) (o : Outcome) :
    attemptBody attempt o = Step.ret ↔ Is2xx o := by
  cases o with
  | requestError msg => simp [attemptBody, Is2xx]
  | transportError msg => simp [attemptBody, Is2xx]
  | response statusCode status body =>
    by_cases h : 200 ≤ statusCode ∧ statusCode < 300
    · simp [attemptBody, Is2xx, h]
    · simp only [attemptBody, Is2xx, h, if_false]
      simp

theorem attemptBody_next_of_not_2xx (attempt : Nat) {o : Outcome} (h : ¬ Is2xx o) :
    ∃ e sleep, attemptBody attempt o = Step.next e sleep := by
  cases hb : attemptBody attempt o with
  | ret => exact absurd ((attemptBody_ret_iff attempt o).1 hb) h
  | next e sleep => exact ⟨e, sleep, rfl⟩

theorem trace_retryLoop (outcomes : Nat → Outcome) : ∀ (remaining attempt : Nat)
    (lastErr : Option String) (trace : List Event),
    (retryLoop outcomes remaining attempt lastErr trace).trace =
      trace ++ loopEvents outcomes remaining attempt := by
  intro remaining
  induction remaining with
  | zero => intro attempt lastErr trace; simp [retryLoop, loopEvents]
  | succ r ih =>
    intro attempt lastErr trace
    simp only [retryLoop, loopEvents]
    cases attemptBody attempt (outcomes attempt) with
    | ret => rfl
    | next e sleep => simp only [ih, List.append_assoc, List.cons_append]

/-- A run whose first 2xx response comes at counter `attempt + k` returns `nil` right at that
attempt, after `k` earlier attempts. -/
theorem retryLoop_success (outcomes : Nat → Outcome) : ∀ (k remaining attempt : Nat)
    (lastErr : Option String) (trace : List Event), k < remaining →
    Is2xx (outcomes (attempt + k)) → (∀ j, j < k → ¬ Is2xx (outcomes (attempt + j))) →
    ∃ mid, retryLoop outcomes remaining attempt lastErr trace =
        { err := none, trace := trace ++ mid ++ [Event.attempt (attempt + k + 1)] } ∧
      (mid.filter Event.isAttempt).length = k := by
  intro k
  induction k with
  | zero =>
    intro remaining attempt lastErr trace hk h2 _
    obtain ⟨r, rfl⟩ : ∃ r, remaining = r + 1 := ⟨remaining - 1, by omega⟩
    have hb := (attemptBody_ret_iff attempt (outcomes attempt)).2 (by simpa using h2)
    exact ⟨[], by simp [retryLoop, hb], rfl⟩
  | succ k ih =>
    intro remaining attempt lastErr trace hk h2 hfail
    obtain ⟨r, rfl⟩ : ∃ r, remaining = r + 1 := ⟨remaining - 1, by omega⟩
    have h0 : ¬ Is2xx (outcomes attempt) := by simpa using hfail 0 (by omega)
    obtain ⟨e, sleep, hb⟩ := attemptBody_next_of_not_2xx attempt h0
    have h2' : Is2xx (outcomes (attempt + 1 + k)) := by
      rw [show attempt + 1 + k = attempt + (k + 1) by omega]; exact h2
    have hfail' : ∀ j, j < k → ¬ Is2xx (outcomes (attempt + 1 + j)) := by
      intro j hj
      rw [show attempt + 1 + j = attempt + (j + 1) by omega]
      exact hfail (j + 1) (by omega)
    obtain ⟨mid, hmid, hlen⟩ := ih r (attempt + 1) (some e)
      (trace ++ Event.attempt (attempt + 1) :: sleepEvents sleep) (by omega) h2' hfail'
    rw [show attempt + 1 + k + 1 = attempt + (k + 1) + 1 by omega] at hmid
    refine ⟨Event.attempt (attempt + 1) :: sleepEvents sleep ++ mid, ?_, ?_⟩
    · simp only [retryLoop, hb, hmid]
      simp
    · cases sleep <;> simp [sleepEvents, Event.isAttempt, List.filter_cons, hlen]

/-- A run in which no attempt gets a 2xx response returns an error. -/
theorem retryLoop_failure (outcomes : Nat → Outcome) : ∀ (remaining attempt : Nat)
    (lastErr : Option String) (trace : List Event),
    (∀ j, j < remaining → ¬ Is2xx (outcomes (attempt + j))) →
    (retryLoop outcomes remaining attempt lastErr trace).err ≠ none := by
  intro remaining
  induction remaining with
  | zero => intro attempt lastErr trace _; simp [retryLoop]
  | succ r ih =>
    intro attempt lastErr trace hfail
    have h0 : ¬ Is2xx (outcomes attempt) := by simpa using hfail 0 (by omega)
    obtain ⟨e, sleep, hb⟩ := attemptBody_next_of_not_2xx attempt h0
    have hfail' : ∀ j, j < r → ¬ Is2xx (outcomes (attempt + 1 + j)) := by
      intro j hj
      rw [show attempt + 1 + j = attempt + (j + 1) by omega]
      exact hfail (j + 1) (by omega)
    simp only [retryLoop, hb]
    exact ih (attempt + 1) (some e) _ hfail'

theorem loopEvents_head (outcomes : Nat → Outcome) (remaining attempt : Nat) :
    loopEvents outcomes remaining attempt = [] ∨
      ∃ t, loopEvents outcomes remaining attempt = Event.attempt (attempt + 1) :: t := by
  cases remaining with
  | zero => exact Or.inl rfl
  | succ r => exact Or.inr ⟨_, rfl⟩

theorem takeWhile_sleepEvents (outcomes : Nat → Outcome) (sleep : Option Nat)
    (remaining attempt : Nat) :
    ((sleepEvents sleep ++ loopEvents outcomes remaining attempt).takeWhile
      (fun e => !e.isAttempt)).filterMap Event.seconds? = sleep.toList := by
  rcases loopEvents_head outcomes remaining attempt with h | ⟨t, h⟩ <;> rw [h] <;>
    cases sleep <;> simp [sleepEvents, Event.isAttempt, Event.seconds?, List.takeWhile]

theorem sleepsAfter_loopEvents_here (outcomes : Nat → Outcome) (remaining attempt : Nat) :
    sleepsAfter (loopEvents outcomes (remaining + 1) attempt) (attempt + 1) =
      stepSleeps (attemptBody attempt (outcomes attempt)) := by
  simp only [sleepsAfter, loopEvents, List.dropWhile, ne_eq, not_true_eq_false, decide_False,
    List.drop_one, List.tail_cons]
  cases attemptBody attempt (outcomes attempt) with
  | ret => simp [stepSleeps]
  | next e sleep => simpa [stepSleeps] using takeWhile_sleepEvents outcomes sleep remaining _

theorem sleepsAfter_loopEvents_later (outcomes : Nat → Outcome) (remaining attempt n : Nat)
    (hn : n ≠ attempt + 1) {e : String} {sleep : Option Nat}
    (hb : attemptBody attempt (outcomes attempt) = Step.next e sleep) :
    sleepsAfter (loopEvents outcomes (remaining + 1) attempt) n =
      sleepsAfter (loopEvents outcomes remaining (attempt + 1)) n := by
  have h1 : Event.attempt (attempt + 1) ≠ Event.attempt n := by
    intro h; injection h with h; exact hn h.symm
  cases sleep <;>
    simp [sleepsAfter, loopEvents, hb, sleepEvents, List.dropWhile, h1]

/-- In a run that reaches attempt `attempt + i + 1`, the sleeps performed after that attempt
are those of its step. -/
theorem sleepsAfter_loopEvents (outcomes : Nat → Outcome) : ∀ (i remaining attempt : Nat),
    i < remaining → (∀ j, j < i → ¬ Is2xx (outcomes (attempt + j))) →
    sleepsAfter (loopEvents outcomes remaining attempt) (attempt + i + 1) =
      stepSleeps (attemptBody (attempt + i) (outcomes (attempt + i))) := by
  intro i
  induction i with
  | zero =>
    intro remaining attempt hi _
    obtain ⟨r, rfl⟩ : ∃ r, remaining = r + 1 := ⟨remaining - 1, by omega⟩
    exact sleepsAfter_loopEvents_here outcomes r attempt
  | succ i ih =>
    intro remaining attempt hi hfail
    obtain ⟨r, rfl⟩ : ∃ r, remaining = r + 1 := ⟨remaining - 1, by omega⟩
    have h0 : ¬ Is2xx (outcomes attempt) := by simpa using hfail 0 (by omega)
    obtain ⟨e, sleep, hb⟩ := attemptBody_next_of_not_2xx attempt h0
    have hfail' : ∀ j, j < i → ¬ Is2xx (outcomes (attempt + 1 + j)) := by
      intro j hj
      rw [show attempt + 1 + j = attempt + (j + 1) by omega]
      exact hfail (j + 1) (by omega)
    rw [sleepsAfter_loopEvents_later outcomes r attempt _ (by omega) hb]
    have := ih r (attempt + 1) (by omega) hfail'
    rw [show attempt + 1 + i + 1 = attempt + (i + 1) + 1 by omega,
      show attempt + 1 + i = attempt + (i + 1) by omega] at this
    exact this

/-- The sleeps after attempt `i + 1` of a run of `sendResultWithRetry` that reaches it. -/
theorem sleepsAfter_sendResultWithRetry (outcomes : Nat → Outcome) (i : Nat)
    (hi : i < maxRetries) (hfail : ∀ j, j < i → ¬ Is2xx (outcomes j)) :
    sleepsAfter (sendResultWithRetry outcomes).trace (i + 1) =
      stepSleeps (attemptBody i (outcomes i)) := by
  unfold sendResultWithRetry
  rw [trace_retryLoop, List.nil_append]
  have := sleepsAfter_loopEvents outcomes i maxRetries 0 hi (by simpa using hfail)
  simpa using this

theorem includes_refl (s : String) : Includes s s :=
  List.infix_refl _

theorem includes_append_left {s t : String} (p : String) (h : Includes s t) :
    Includes (p ++ s) t := by
  unfold Includes at *
  rw [String.data_append]
  exact List.IsInfix.trans h (List.suffix_append _ _).isInfix

theorem includes_append_right {s t : String} (p : String) (h : Includes s t) :
    Includes (s ++ p) t := by
  unfold Includes at *
  rw [String.data_append]
  exact List.IsInfix.trans h (List.prefix_append _ _).isInfix

theorem not_2xx_of_non2xxResponse {o : Outcome} (h : IsNon2xxResponse o) : ¬ Is2xx o := by
  cases o <;> simp_all [IsNon2xxResponse, Is2xx]

theorem stepSleeps_non2xxResponse (i : Nat) {o : Outcome} (h : IsNon2xxResponse o) :
    stepSleeps (attemptBody i o) = if i + 1 < 4 then [i + 1] else [] := by
  cases o with
  | requestError msg => exact absurd h (by simp [IsNon2xxResponse])
  | transportError msg => exact absurd h (by simp [IsNon2xxResponse])
  | response statusCode status body =>
    have h' : ¬ (200 ≤ statusCode ∧ statusCode < 300) := h
    simp only [attemptBody, h', if_false, stepSleeps, maxRetries]
    by_cases hi : i < 3
    · have : i + 1 < 4 := by omega
      simp [hi, this]
    · have : ¬ i + 1 < 4 := by omega
      simp [hi, this]

/-! ## Part IV: the claims -/

/-! ### `solveMutualFollowers` -/

/-- C1: for every input and every traversal a run may take, each element of the result of
`solveMutualFollowers` is a two-element list `[a, b]` in ascending order (`a ≤ b`, the smaller
ID first) such that some input user with ID `a` lists `b` and some input user with ID `b`
lists `a`. -/
theorem solveMutualFollowers_sound (users : List User) (order : List (Int × List Int))
    (h : IsTraversal (buildFollowingMap users) order) (p : List Int)
    (hp : p ∈ solveMutualFollowers users order) :
    ∃ a b, p = [a, b] ∧ a ≤ b ∧ FollowsIn users a b ∧ FollowsIn users b a := by
  obtain ⟨x, y, hxy, hyx, rfl⟩ := (mem_solveMutualFollowers h p).1 hp
  by_cases hlt : y < x
  · exact ⟨y, x, by simp [sortedPair, sortInts2, hlt], le_of_lt hlt, hyx, hxy⟩
  · exact ⟨x, y, by simp [sortedPair, sortInts2, hlt], not_lt.1 hlt, hxy, hyx⟩

theorem solveMutualFollowers_sound_witness :
    IsTraversal (buildFollowingMap scenarioUsers) [(3, [2]), (2, [3, 1]), (1, [2])] ∧
    [2, 3] ∈ solveMutualFollowers scenarioUsers [(3, [2]), (2, [3, 1]), (1, [2])] ∧
    ∃ a b, [2, 3] = [a, b] ∧ a ≤ b ∧ FollowsIn scenarioUsers a b ∧ FollowsIn scenarioUsers b a :=
  ⟨by decide, by decide,
    solveMutualFollowers_sound scenarioUsers [(3, [2]), (2, [3, 1]), (1, [2])] (by decide)
      [2, 3] (by decide)⟩

/-- C2: for every input with unique IDs, every traversal a run may take and every two distinct
IDs `u`, `v` such that `u` follows `v` and `v` follows `u` in the input, `[min u v, max u v]`
is an element of the result; and for the users `1 → [2]`, `2 → [1, 3]`, `3 → [2]` the result
along any traversal `order'`, viewed as a set, is exactly `{[1, 2], [2, 3]}`. -/
theorem solveMutualFollowers_complete (users : List User) (order : List (Int × List Int))
    (u v : Int) (_hids : (users.map User.ID).Nodup)
    (h : IsTraversal (buildFollowingMap users) order) (_huv : u ≠ v)
    (huv : FollowsIn users u v) (hvu : FollowsIn users v u)
    (order' : List (Int × List Int))
    (h' : IsTraversal (buildFollowingMap scenarioUsers) order') :
    [min u v, max u v] ∈ solveMutualFollowers users order ∧
    ∀ p, p ∈ solveMutualFollowers scenarioUsers order' ↔ p = [1, 2] ∨ p = [2, 3] := by
  refine ⟨?_, fun p => ?_⟩
  · rw [mem_solveMutualFollowers h, ← sortedPair_eq]
    exact ⟨u, v, huv, hvu, rfl⟩
  · rw [mem_solveMutualFollowers h']
    have key : ∀ a b : Int, FollowsIn scenarioUsers a b ↔
        (a = 1 ∧ b = 2) ∨ (a = 2 ∧ (b = 1 ∨ b = 3)) ∨ (a = 3 ∧ b = 2) := by
      intro a b
      simp only [FollowsIn, scenarioUsers, List.mem_cons, List.mem_singleton, List.not_mem_nil,
        or_false, exists_eq_or_imp, exists_eq_left]
      constructor
      · rintro (⟨h1, h2⟩ | ⟨h1, h2⟩ | ⟨h1, h2⟩)
        · exact Or.inl ⟨h1.symm, h2⟩
        · exact Or.inr (Or.inl ⟨h1.symm, h2⟩)
        · exact Or.inr (Or.inr ⟨h1.symm, h2⟩)
      · rintro (⟨h1, h2⟩ | ⟨h1, h2⟩ | ⟨h1, h2⟩)
        · exact Or.inl ⟨h1.symm, h2⟩
        · exact Or.inr (Or.inl ⟨h1.symm, h2⟩)
        · exact Or.inr (Or.inr ⟨h1.symm, h2⟩)
    constructor
    · rintro ⟨a, b, hab, hba, rfl⟩
      rw [key] at hab hba
      rcases hab with ⟨rfl, rfl⟩ | ⟨rfl, rfl | rfl⟩ | ⟨rfl, rfl⟩ <;>
        simp [sortedPair, sortInts2]
    · rintro (rfl | rfl)
      · exact ⟨1, 2, (key 1 2).2 (by decide), (key 2 1).2 (by decide), by decide⟩
      · exact ⟨2, 3, (key 2 3).2 (by decide), (key 3 2).2 (by decide), by decide⟩

theorem solveMutualFollowers_complete_witness :
    (scenarioUsers.map User.ID).Nodup ∧
    IsTraversal (buildFollowingMap scenarioUsers) (insertionOrder scenarioUsers) ∧
    (2 : Int) ≠ 1 ∧ FollowsIn scenarioUsers 2 1 ∧ FollowsIn scenarioUsers 1 2 ∧
    IsTraversal (buildFollowingMap scenarioUsers) [(3, [2]), (2, [3, 1]), (1, [2])] ∧
    ([min 2 1, max 2 1] ∈ solveMutualFollowers scenarioUsers (insertionOrder scenarioUsers) ∧
      ∀ p, p ∈ solveMutualFollowers scenarioUsers [(3, [2]), (2, [3, 1]), (1, [2])] ↔
        p = [1, 2] ∨ p = [2, 3]) :=
  ⟨by decide, by decide, by decide, ⟨⟨2, "b", [1, 3]⟩, by decide, rfl, by decide⟩,
    ⟨⟨1, "a", [2]⟩, by decide, rfl, by decide⟩, by decide,
    solveMutualFollowers_complete scenarioUsers (insertionOrder scenarioUsers) 2 1 (by decide)
      (by decide) (by decide) ⟨⟨2, "b", [1, 3]⟩, by decide, rfl, by decide⟩
      ⟨⟨1, "a", [2]⟩, by decide, rfl, by decide⟩ [(3, [2]), (2, [3, 1]), (1, [2])] (by decide)⟩

/-- C3: for every input (any integer IDs, negative ones and repeated follow entries included)
and every traversal, the result of `solveMutualFollowers` holds no pair at two positions; and
the dedup key `"%d-%d"` is injective on pairs of integers. -/
theorem solveMutualFollowers_nodup (users : List User) (order : List (Int × List Int)) :
    (solveMutualFollowers users order).Nodup ∧
    Function.Injective (fun pair : Int × Int => pairKey pair.1 pair.2) := by
  refine ⟨scanFollowingMap_nodup _ _, ?_⟩
  rintro ⟨a, b⟩ ⟨c, d⟩ hkey
  obtain ⟨h1, h2⟩ := pairKey_injective hkey
  exact Prod.ext h1 h2

/-- C4, as the code behaves: a user that follows only themselves yields the pair `[1, 1]`. -/
theorem selfLoop_yields_pair :
    IsTraversal (buildFollowingMap selfLoopUsers) [(1, [1])] ∧
    solveMutualFollowers selfLoopUsers [(1, [1])] = [[1, 1]] := by
  decide

/-- C4, amended: along every traversal a run may take, `[a, a]` is returned exactly when some
input user with ID `a` lists `a` in its follows; and when no input user lists their own ID,
every returned pair `[a, b]` has `a < b`. -/
theorem solveMutualFollowers_selfLoop (users : List User) (order : List (Int × List Int))
    (h : IsTraversal (buildFollowingMap users) order) :
    (∀ a, [a, a] ∈ solveMutualFollowers users order ↔ FollowsIn users a a) ∧
    ((∀ u ∈ users, u.ID ∉ u.Follows) →
      ∀ p ∈ solveMutualFollowers users order, ∃ a b, p = [a, b] ∧ a < b) := by
  refine ⟨fun a => ?_, fun hno p hp => ?_⟩
  · rw [mem_solveMutualFollowers h]
    constructor
    · rintro ⟨x, y, hxy, hyx, hp⟩
      unfold sortedPair sortInts2 at hp
      by_cases hlt : y < x
      · simp only [hlt, if_true, List.cons.injEq, and_true] at hp
        omega
      · simp only [hlt, if_false, List.cons.injEq, and_true] at hp
        obtain ⟨rfl, rfl⟩ := hp
        exact hxy
    · intro haa
      exact ⟨a, a, haa, haa, by simp [sortedPair, sortInts2]⟩
  · obtain ⟨x, y, hxy, hyx, rfl⟩ := (mem_solveMutualFollowers h p).1 hp
    have hne : x ≠ y := by
      rintro rfl
      obtain ⟨u, hu, hid, hmem⟩ := hxy
      exact hno u hu (hid ▸ hmem)
    by_cases hlt : y < x
    · exact ⟨y, x, by simp [sortedPair, sortInts2, hlt], hlt⟩
    · exact ⟨x, y, by simp [sortedPair, sortInts2, hlt], by omega⟩

theorem solveMutualFollowers_selfLoop_witness :
    IsTraversal (buildFollowingMap scenarioUsers) [(2, [3, 1]), (1, [2]), (3, [2])] ∧
    (∀ u ∈ scenarioUsers, u.ID ∉ u.Follows) ∧
    (∀ p ∈ solveMutualFollowers scenarioUsers [(2, [3, 1]), (1, [2]), (3, [2])],
      ∃ a b, p = [a, b] ∧ a < b) ∧
    IsTraversal (buildFollowingMap selfLoopUsers) [(1, [1])] ∧
    ([1, 1] ∈ solveMutualFollowers selfLoopUsers [(1, [1])] ↔ FollowsIn selfLoopUsers 1 1) :=
  ⟨by decide, by decide,
    (solveMutualFollowers_selfLoop scenarioUsers [(2, [3, 1]), (1, [2]), (3, [2])]
      (by decide)).2 (by decide),
    by decide,
    (solveMutualFollowers_selfLoop selfLoopUsers [(1, [1])] (by decide)).1 1⟩

/-- C9: any two runs on the same input, whatever traversals of the adjacency map and of the
follow sets they take, return lists with the same elements and the same length (each a
rearrangement of the other). -/
theorem solveMutualFollowers_order_independent (users : List User)
    (order₁ order₂ : List (Int × List Int))
    (h₁ : IsTraversal (buildFollowingMap users) order₁)
    (h₂ : IsTraversal (buildFollowingMap users) order₂) :
    (∀ p, p ∈ solveMutualFollowers users order₁ ↔ p ∈ solveMutualFollowers users order₂) ∧
    (solveMutualFollowers users order₁).length = (solveMutualFollowers users order₂).length ∧
    (solveMutualFollowers users order₁).Perm (solveMutualFollowers users order₂) := by
  have hmem : ∀ p, p ∈ solveMutualFollowers users order₁ ↔
      p ∈ solveMutualFollowers users order₂ := fun p => by
    rw [mem_solveMutualFollowers h₁, mem_solveMutualFollowers h₂]
  have hperm : (solveMutualFollowers users order₁).Perm (solveMutualFollowers users order₂) :=
    (List.perm_ext_iff_of_nodup (scanFollowingMap_nodup _ _) (scanFollowingMap_nodup _ _)).2 hmem
  exact ⟨hmem, hperm.length_eq, hperm⟩

theorem solveMutualFollowers_order_independent_witness :
    IsTraversal (buildFollowingMap scenarioUsers) (insertionOrder scenarioUsers) ∧
    IsTraversal (buildFollowingMap scenarioUsers) [(3, [2]), (2, [3, 1]), (1, [2])] ∧
    solveMutualFollowers scenarioUsers (insertionOrder scenarioUsers) = [[1, 2], [2, 3]] ∧
    solveMutualFollowers scenarioUsers [(3, [2]), (2, [3, 1]), (1, [2])] = [[2, 3], [1, 2]] ∧
    (solveMutualFollowers scenarioUsers (insertionOrder scenarioUsers)).length =
      (solveMutualFollowers scenarioUsers [(3, [2]), (2, [3, 1]), (1, [2])]).length :=
  ⟨by decide, by decide, by decide, by decide,
    (solveMutualFollowers_order_independent scenarioUsers (insertionOrder scenarioUsers)
      [(3, [2]), (2, [3, 1]), (1, [2])] (by decide) (by decide)).2.1⟩

/-- C10, as the code behaves: on `[{1,[2]}, {2,[1]}, {1,[3]}]` the second entry for ID 1 does
not overwrite the first; the adjacency set of 1 is `[2, 3]` and the pair `[1, 2]` is returned,
whereas the input without the earlier occurrence of ID 1 yields nothing. -/
theorem duplicateUsers_merge :
    buildFollowingMap duplicateUsers = [(1, [2, 3]), (2, [1])] ∧
    IsTraversal (buildFollowingMap duplicateUsers) (insertionOrder duplicateUsers) ∧
    solveMutualFollowers duplicateUsers (insertionOrder duplicateUsers) = [[1, 2]] ∧
    solveMutualFollowers [⟨2, "b", [1]⟩, ⟨1, "c", [3]⟩]
      (insertionOrder [⟨2, "b", [1]⟩, ⟨1, "c", [3]⟩]) = [] := by
  decide

/-- C10, amended: the follow lists of all occurrences of an ID are merged.  The adjacency set
built for `a` holds `b` exactly when some input user with ID `a` lists `b`, and two inputs
with the same merged edges return the same set of pairs along any traversals. -/
theorem solveMutualFollowers_merges_duplicates (users users' : List User)
    (order order' : List (Int × List Int))
    (h : IsTraversal (buildFollowingMap users) order)
    (h' : IsTraversal (buildFollowingMap users') order')
    (hsame : ∀ a b, FollowsIn users' a b ↔ FollowsIn users a b) :
    (∀ a b, HasEdge (buildFollowingMap users) a b ↔ ∃ u ∈ users, u.ID = a ∧ b ∈ u.Follows) ∧
    ∀ p, p ∈ solveMutualFollowers users' order' ↔ p ∈ solveMutualFollowers users order := by
  refine ⟨fun a b => hasEdge_buildFollowingMap users a b, fun p => ?_⟩
  rw [mem_solveMutualFollowers h, mem_solveMutualFollowers h']
  simp only [hsame]

theorem solveMutualFollowers_merges_duplicates_witness :
    IsTraversal (buildFollowingMap duplicateUsers) (insertionOrder duplicateUsers) ∧
    IsTraversal (buildFollowingMap [⟨1, "a", [2, 3]⟩, ⟨2, "b", [1]⟩]) [(2, [1]), (1, [3, 2])] ∧
    solveMutualFollowers [⟨1, "a", [2, 3]⟩, ⟨2, "b", [1]⟩] [(2, [1]), (1, [3, 2])] = [[1, 2]] ∧
    ∀ p, p ∈ solveMutualFollowers [⟨1, "a", [2, 3]⟩, ⟨2, "b", [1]⟩] [(2, [1]), (1, [3, 2])] ↔
      p ∈ solveMutualFollowers duplicateUsers (insertionOrder duplicateUsers) :=
  ⟨by decide, by decide, by decide,
    (solveMutualFollowers_merges_duplicates duplicateUsers [⟨1, "a", [2, 3]⟩, ⟨2, "b", [1]⟩]
      (insertionOrder duplicateUsers) [(2, [1]), (1, [3, 2])] (by decide) (by decide)
      (by
        intro a b
        simp only [FollowsIn, duplicateUsers, List.mem_cons, List.mem_singleton,
          List.not_mem_nil, or_false, exists_eq_or_imp, exists_eq_left]
        tauto)).2⟩

/-! ### `sendResultWithRetry` -/

/-- C5: `sendResultWithRetry` returns `nil` if and only if one of the first 4 attempt outcomes
is a response with status in 200..299; when the first such outcome is at attempt `i + 1`, it
returns `nil` having made exactly `i + 1` attempts, and that attempt is the last event of the
run (no sleep or attempt follows it).  A transport error, then a 500, then a 200 gives success
after 3 attempts. -/
theorem sendResultWithRetry_success (outcomes : Nat → Outcome) :
    ((sendResultWithRetry outcomes).err = none ↔ ∃ i, i < 4 ∧ Is2xx (outcomes i)) ∧
    (∀ i, i < 4 → Is2xx (outcomes i) → (∀ j, j < i → ¬ Is2xx (outcomes j)) →
      (sendResultWithRetry outcomes).err = none ∧
      attemptsMade (sendResultWithRetry outcomes) = i + 1 ∧
      (sendResultWithRetry outcomes).trace.getLast? = some (Event.attempt (i + 1))) ∧
    sendResultWithRetry
        (outcomesOf [Outcome.transportError "connection refused", response500]
          (Outcome.response 200 "200 OK" "ok")) =
      { err := none,
        trace := [Event.attempt 1, Event.sleep 1, Event.attempt 2, Event.sleep 2,
          Event.attempt 3] } := by
  have first : ∀ i, i < 4 → Is2xx (outcomes i) → (∀ j, j < i → ¬ Is2xx (outcomes j)) →
      (sendResultWithRetry outcomes).err = none ∧
      attemptsMade (sendResultWithRetry outcomes) = i + 1 ∧
      (sendResultWithRetry outcomes).trace.getLast? = some (Event.attempt (i + 1)) := by
    intro i hi h2 hfail
    obtain ⟨mid, hrun, hlen⟩ := retryLoop_success outcomes i maxRetries 0 none [] hi
      (by simpa using h2) (by simpa using hfail)
    unfold attemptsMade sendResultWithRetry
    rw [hrun]
    refine ⟨rfl, ?_, ?_⟩
    · simp [List.filter_append, hlen, Event.isAttempt]
    · simp
  refine ⟨⟨fun herr => ?_, ?_⟩, first, by decide⟩
  · by_contra hnone
    have hfail : ∀ j, j < maxRetries → ¬ Is2xx (outcomes (0 + j)) := by
      intro j hj h2
      exact hnone ⟨j, hj, by simpa using h2⟩
    exact retryLoop_failure outcomes maxRetries 0 none [] hfail herr
  · intro hex
    have hex' : ∃ i, i < 4 ∧ Is2xx (outcomes i) := hex
    have hmin := Nat.find_spec hex'
    exact (first (Nat.find hex') hmin.1 hmin.2 (fun j hj h2 =>
      Nat.find_min hex' hj ⟨lt_trans hj hmin.1, h2⟩)).1

theorem sendResultWithRetry_success_witness :
    Is2xx (outcomesOf [Outcome.requestError "bad url", response500]
      (Outcome.response 204 "204 No Content" "") 2) ∧
    attemptsMade (sendResultWithRetry (outcomesOf [Outcome.requestError "bad url", response500]
      (Outcome.response 204 "204 No Content" ""))) = 2 + 1 :=
  ⟨by decide,
    ((sendResultWithRetry_success (outcomesOf [Outcome.requestError "bad url", response500]
      (Outcome.response 204 "204 No Content" ""))).2.1 2 (by decide) (by decide)
      (by decide)).2.1⟩

/-- C6: when none of the 4 attempts gets a 2xx response, `sendResultWithRetry` makes exactly
the attempts 1, 2, 3, 4 and returns the error `failed after 4 attempts. Last error: e` where
`e` is the error of the last attempt; the message includes `4` and `e`, and when the last
outcome was a response, its status and its body.  The message is given in full for each kind
of last failure: after a non-2xx response it is
`failed after 4 attempts. Last error: attempt 4: result request failed with status S: B` for
the status text `S` and body `B` of that response, after a transport error with text `msg` it
is `failed after 4 attempts. Last error: failed to execute result request : msg`, and after a
request-construction error it is
`failed after 4 attempts. Last error: failed to create result request: msg`; in each case it
includes the observed text. -/
theorem sendResultWithRetry_exhausted (outcomes : Nat → Outcome)
    (hfail : ∀ i, i < 4 → ¬ Is2xx (outcomes i)) :
    attemptsMade (sendResultWithRetry outcomes) = 4 ∧
    (sendResultWithRetry outcomes).trace.filter Event.isAttempt =
      [Event.attempt 1, Event.attempt 2, Event.attempt 3, Event.attempt 4] ∧
    ∃ lastErr sleep, attemptBody 3 (outcomes 3) = Step.next lastErr sleep ∧
      (sendResultWithRetry outcomes).err =
        some ("failed after 4 attempts. Last error: " ++ lastErr) ∧
      Includes ("failed after 4 attempts. Last error: " ++ lastErr) "4" ∧
      Includes ("failed after 4 attempts. Last error: " ++ lastErr) lastErr ∧
      (∀ statusCode status body, outcomes 3 = Outcome.response statusCode status body →
        Includes ("failed after 4 attempts. Last error: " ++ lastErr) status ∧
        Includes ("failed after 4 attempts. Last error: " ++ lastErr) body) ∧
      (∀ statusCode status body, outcomes 3 = Outcome.response statusCode status body →
        (sendResultWithRetry outcomes).err =
          some ("failed after 4 attempts. Last error: " ++
            ("attempt 4: result request failed with status " ++ status ++ ": " ++ body))) ∧
      (∀ msg, outcomes 3 = Outcome.transportError msg →
        (sendResultWithRetry outcomes).err =
          some ("failed after 4 attempts. Last error: " ++
            ("failed to execute result request : " ++ msg)) ∧
        Includes ("failed after 4 attempts. Last error: " ++ lastErr) msg) ∧
      (∀ msg, outcomes 3 = Outcome.requestError msg →
        (sendResultWithRetry outcomes).err =
          some ("failed after 4 attempts. Last error: " ++
            ("failed to create result request: " ++ msg)) ∧
        Includes ("failed after 4 attempts. Last error: " ++ lastErr) msg) := by
  obtain ⟨e0, s0, h0⟩ := attemptBody_next_of_not_2xx 0 (hfail 0 (by omega))
  obtain ⟨e1, s1, h1⟩ := attemptBody_next_of_not_2xx 1 (hfail 1 (by omega))
  obtain ⟨e2, s2, h2⟩ := attemptBody_next_of_not_2xx 2 (hfail 2 (by omega))
  obtain ⟨e3, s3, h3⟩ := attemptBody_next_of_not_2xx 3 (hfail 3 (by omega))
  have hrun : sendResultWithRetry outcomes =
      { err := some ("failed after 4 attempts. Last error: " ++ e3),
        trace := Event.attempt 1 :: sleepEvents s0 ++ Event.attempt 2 :: sleepEvents s1 ++
          Event.attempt 3 :: sleepEvents s2 ++ Event.attempt 4 :: sleepEvents s3 } := by
    have h4 : formatInt (4 : Nat) = "4" := by decide
    simp only [sendResultWithRetry, maxRetries, retryLoop, h0, h1, h2, h3, terminalError,
      errorText, h4, List.nil_append, List.append_assoc, List.cons_append, Nat.reduceAdd,
      String.append_assoc]
    rfl
  have hfilter : ∀ s : Option Nat, (sleepEvents s).filter Event.isAttempt = [] := by
    intro s; cases s <;> rfl
  have hresp : ∀ statusCode status body,
      outcomes 3 = Outcome.response statusCode status body →
      e3 = "attempt " ++ formatInt ((3 : Nat) + 1) ++ ": result request failed with status " ++
        status ++ ": " ++ body := by
    intro statusCode status body ho
    rw [ho] at h3
    have hnot : ¬ (200 ≤ statusCode ∧ statusCode < 300) := by
      have := hfail 3 (by omega)
      rw [ho] at this
      exact this
    simp only [attemptBody, hnot, if_false, Step.next.injEq] at h3
    exact h3.1.symm
  have hhead : "attempt " ++ formatInt ((3 : Nat) + 1) ++
      ": result request failed with status " =
        "attempt 4: result request failed with status " := by decide
  refine ⟨?_, ?_, e3, s3, h3, by rw [hrun], ?_, ?_, ?_, ?_, ?_, ?_⟩
  · simp [attemptsMade, hrun, List.filter_append, List.filter_cons, hfilter, Event.isAttempt]
  · simp [hrun, List.filter_append, List.filter_cons, hfilter, Event.isAttempt]
  · have : "failed after 4 attempts. Last error: " ++ e3 =
        "failed after " ++ ("4" ++ (" attempts. Last error: " ++ e3)) := by
      apply String.ext; simp [String.data_append]
    rw [this]
    exact includes_append_left _ (includes_append_right _ (includes_refl _))
  · exact includes_append_left _ (includes_refl _)
  · intro statusCode status body ho
    rw [hresp statusCode status body ho]
    exact ⟨includes_append_left _ (includes_append_right _ (includes_append_right _
        (includes_append_left _ (includes_refl _)))),
      includes_append_left _ (includes_append_left _ (includes_refl _))⟩
  · intro statusCode status body ho
    rw [hrun, hresp statusCode status body ho, hhead]
  · intro msg ho
    rw [ho] at h3
    simp only [attemptBody, Step.next.injEq] at h3
    rw [hrun, ← h3.1]
    exact ⟨rfl, includes_append_left _ (includes_append_left _ (includes_refl _))⟩
  · intro msg ho
    rw [ho] at h3
    simp only [attemptBody, Step.next.injEq] at h3
    rw [hrun, ← h3.1]
    exact ⟨rfl, includes_append_left _ (includes_append_left _ (includes_refl _))⟩

theorem sendResultWithRetry_exhausted_witness :
    (∀ i, i < 4 → ¬ Is2xx ((fun _ => response500) i)) ∧
    (sendResultWithRetry (fun _ => response500)).err =
      some ("failed after 4 attempts. Last error: attempt 4: result request failed with " ++
        "status 500 Internal Server Error: boom") ∧
    attemptsMade (sendResultWithRetry (fun _ => response500)) = 4 ∧
    (∀ i, i < 4 → ¬ Is2xx ((fun _ => Outcome.transportError "connection refused") i)) ∧
    (sendResultWithRetry (fun _ => Outcome.transportError "connection refused")).err =
      some "failed after 4 attempts. Last error: failed to execute result request : connection refused" ∧
    attemptsMade (sendResultWithRetry (fun _ => Outcome.transportError "connection refused")) =
      4 :=
  ⟨fun _ _ => (by decide : ¬ Is2xx response500), by decide,
    (sendResultWithRetry_exhausted (fun _ => response500)
      (fun _ _ => (by decide : ¬ Is2xx response500))).1,
    fun _ _ => (by decide : ¬ Is2xx (Outcome.transportError "connection refused")), by decide,
    (sendResultWithRetry_exhausted (fun _ => Outcome.transportError "connection refused")
      (fun _ _ => (by decide : ¬ Is2xx (Outcome.transportError "connection refused")))).1⟩

/-- C7: in a run whose attempts `1..k` (`k ≤ 4`) all end in a non-2xx response, the sleep
after failed attempt `n ≤ k` is exactly `n` seconds when `n < 4` and there is no sleep after
failed attempt 4; with `k = 4` the run is attempt, sleep 1, attempt, sleep 2, attempt, sleep 3,
attempt, and it returns the terminal error. -/
theorem sendResultWithRetry_linear_backoff (outcomes : Nat → Outcome) (k : Nat) (hk : k ≤ 4)
    (hresp : ∀ j, j < k → IsNon2xxResponse (outcomes j)) :
    (∀ n, 1 ≤ n → n ≤ k →
      sleepsAfter (sendResultWithRetry outcomes).trace n = if n < 4 then [n] else []) ∧
    (k = 4 →
      (sendResultWithRetry outcomes).trace =
        [Event.attempt 1, Event.sleep 1, Event.attempt 2, Event.sleep 2, Event.attempt 3,
          Event.sleep 3, Event.attempt 4] ∧
      sleepsOf (sendResultWithRetry outcomes) = [1, 2, 3] ∧
      (sendResultWithRetry outcomes).err ≠ none) := by
  have hsleep : ∀ n, 1 ≤ n → n ≤ k →
      sleepsAfter (sendResultWithRetry outcomes).trace n = if n < 4 then [n] else [] := by
    intro n hn1 hnk
    obtain ⟨i, rfl⟩ : ∃ i, n = i + 1 := ⟨n - 1, by omega⟩
    rw [sleepsAfter_sendResultWithRetry outcomes i (by unfold maxRetries; omega)
      (fun j hj => not_2xx_of_non2xxResponse (hresp j (by omega)))]
    exact stepSleeps_non2xxResponse i (hresp i (by omega))
  refine ⟨hsleep, fun hk4 => ?_⟩
  subst hk4
  have hstep : ∀ i, i < 4 → ∃ e, attemptBody i (outcomes i) =
      Step.next e (if i < 3 then some (i + 1) else none) := by
    intro i hi
    have hr := hresp i hi
    cases ho : outcomes i with
    | requestError msg => rw [ho] at hr; exact absurd hr (by simp [IsNon2xxResponse])
    | transportError msg => rw [ho] at hr; exact absurd hr (by simp [IsNon2xxResponse])
    | response statusCode status body =>
      rw [ho] at hr
      have h' : ¬ (200 ≤ statusCode ∧ statusCode < 300) := hr
      exact ⟨_, by simp only [attemptBody, h', if_false, maxRetries]; rfl⟩
  obtain ⟨e0, h0⟩ := hstep 0 (by omega)
  obtain ⟨e1, h1⟩ := hstep 1 (by omega)
  obtain ⟨e2, h2⟩ := hstep 2 (by omega)
  obtain ⟨e3, h3⟩ := hstep 3 (by omega)
  have htrace : (sendResultWithRetry outcomes).trace =
      [Event.attempt 1, Event.sleep 1, Event.attempt 2, Event.sleep 2, Event.attempt 3,
        Event.sleep 3, Event.attempt 4] := by
    simp [sendResultWithRetry, maxRetries, retryLoop, h0, h1, h2, h3, sleepEvents]
  refine ⟨htrace, ?_, ?_⟩
  · simp [sleepsOf, htrace, Event.seconds?]
  · exact retryLoop_failure outcomes maxRetries 0 none []
      (fun j hj => by simpa using not_2xx_of_non2xxResponse (hresp j hj))

theorem sendResultWithRetry_linear_backoff_witness :
    (4 ≤ 4) ∧ (∀ j, j < 4 → IsNon2xxResponse ((fun _ => response500) j)) ∧
    sleepsOf (sendResultWithRetry (fun _ => response500)) = [1, 2, 3] ∧
    sleepsAfter (sendResultWithRetry (fun _ => response500)).trace 4 = [] :=
  ⟨by decide, fun _ _ => (by decide : IsNon2xxResponse response500),
    ((sendResultWithRetry_linear_backoff (fun _ => response500) 4 (by decide)
      (fun _ _ => (by decide : IsNon2xxResponse response500))).2 rfl).2.1, by decide⟩

/-- C8, as the code behaves: when attempt 2 fails with a transport error the run sleeps
1 second after it, and when it fails with a 500 response the run sleeps 2 seconds. -/
theorem transport_backoff_differs :
    sleepsAfter (sendResultWithRetry
      (outcomesOf [response500, Outcome.transportError "connection refused"] response500)).trace
      2 = [1] ∧
    sleepsAfter (sendResultWithRetry (outcomesOf [response500, response500] response500)).trace
      2 = [2] := by
  decide

/-- C8, amended: in a run that reaches attempt `n = i + 1` with `n` in 1..3, the sleep after
that attempt is 1 second when it fails with a transport error and `n` seconds when it fails
with a non-2xx response; the two agree for `n = 1` only. -/
theorem sendResultWithRetry_backoff_by_failure (outcomes : Nat → Outcome) (i : Nat)
    (hi : i < 3) (hreach : ∀ j, j < i → ¬ Is2xx (outcomes j)) :
    (∀ msg, outcomes i = Outcome.transportError msg →
      sleepsAfter (sendResultWithRetry outcomes).trace (i + 1) = [1]) ∧
    (IsNon2xxResponse (outcomes i) →
      sleepsAfter (sendResultWithRetry outcomes).trace (i + 1) = [i + 1]) := by
  have hrun := sleepsAfter_sendResultWithRetry outcomes i (by unfold maxRetries; omega) hreach
  refine ⟨fun msg ho => ?_, fun ho => ?_⟩
  · rw [hrun, ho]
    rfl
  · rw [hrun, stepSleeps_non2xxResponse i ho]
    have : i + 1 < 4 := by omega
    simp [this]

theorem sendResultWithRetry_backoff_by_failure_witness :
    (1 < 3) ∧
    (∀ j, j < 1 → ¬ Is2xx
      (outcomesOf [response500, Outcome.transportError "connection refused"] response500 j)) ∧
    sleepsAfter (sendResultWithRetry
      (outcomesOf [response500, Outcome.transportError "connection refused"] response500)).trace
      (1 + 1) = [1] :=
  ⟨by decide, fun j hj => by interval_cases j; decide,
    (sendResultWithRetry_backoff_by_failure
      (outcomesOf [response500, Outcome.transportError "connection refused"] response500) 1
      (by decide) (fun j hj => by interval_cases j; decide)).1 "connection refused" rfl⟩

end MutualFollowers
